import Mathlib

/-!
Verification of the FenceFlow front-end score pipeline.

This file gives a shallow embedding, in Lean 4, of the JavaScript functions of
the repository that C1–C10 are about:

* `frontend/src/utils/scoreValidation.js`:
  `validateScoresClient`, `computeResultsClient`, `isCellProblematic`;
* `frontend/src/components/coach/BoutInput.jsx`: the client-side validation in
  `handleSubmit`;
* the `handleSetBracket` seed parsing of the coach `DEBracket` component;
* `frontend/src/components/coach/FencerList.jsx`: the per-row rendering of the
  ranking table;
* `frontend/src/components/public/EventLeaderboard.jsx`: the per-event
  aggregation of approved pool results.

A score matrix is a list of rows, each cell being `Option Int` (`none` is the
JavaScript `null`; an out-of-range access, which JavaScript reads as
`undefined` and the code treats like `null` via `!= null`, is also `none`).
Imperative accumulation loops become `List.foldl` over `List.range n` in the
same iteration order; `anomalies.push` becomes list append in push order.
-/

namespace FenceFlow

/-- One row/column label of a pool: the fields of a fencer object that the
validation and leaderboard code reads (`last_name`, `first_name`, `club`,
`rating`). -/
structure Fencer where
  first_name : String
  last_name : String
  club : String := ""
  rating : String := ""
deriving DecidableEq

/-- Severity level of a validation anomaly (`level` field in the JS objects). -/
inductive Level where
  | error
  | warning
deriving DecidableEq

/-- One anomaly object `{ level, message }` pushed by `validateScoresClient`. -/
structure Anomaly where
  level : Level
  message : String
deriving DecidableEq

/-- A pool score matrix: rows of nullable touch counts. -/
abbrev Matrix := List (List (Option Int))

/-- `matrix[i][j]` with JavaScript semantics: `none` when the cell is `null`
or when either index is out of range (JS `undefined`, which the code treats
like `null`). -/
def cell (m : Matrix) (i j : Nat) : Option Int :=
  ((m.get? i).bind fun row => row.get? j).join

/-- `tsArr[i]` of `validateScoresClient` (and `ts` of `computeResultsClient`):
`for (j ...) { if (i === j) continue; if (matrix[i][j] != null) ts += matrix[i][j]; }`. -/
def tsOf (m : Matrix) (i : Nat) : Int :=
  (List.range m.length).foldl
    (fun ts j =>
      if i = j then ts
      else
        match cell m i j with
        | some v => ts + v
        | none => ts) 0

/-- `trArr[i]` of `validateScoresClient` (and `tr` of `computeResultsClient`):
the same loop reading `matrix[j][i]`. -/
def trOf (m : Matrix) (i : Nat) : Int :=
  (List.range m.length).foldl
    (fun tr j =>
      if i = j then tr
      else
        match cell m j i with
        | some v => tr + v
        | none => tr) 0

/-- `indSum = tsArr.reduce((a, v, i) => a + (v - trArr[i]), 0)`. -/
def indSumClient (m : Matrix) : Int :=
  (List.range m.length).foldl (fun a i => a + (tsOf m i - trOf m i)) 0

/-- `fencers[i]?.last_name || 'Fencer ${i + 1}'`: the display label used in
anomaly messages (the JS `||` falls through on `undefined` and on the empty
string). -/
def fencerLabel (fencers : List Fencer) (i : Nat) : String :=
  match fencers.get? i with
  | some f => if f.last_name = "" then "Fencer " ++ toString (i + 1) else f.last_name
  | none => "Fencer " ++ toString (i + 1)

/-- The single anomaly pushed when `indSum !== 0` (empty list otherwise). -/
def indicatorAnomalies (m : Matrix) : List Anomaly :=
  if indSumClient m ≠ 0 then
    [⟨Level.error, "Indicator sum is " ++ toString (indSumClient m) ++ ", should be 0"⟩]
  else []

/-- The out-of-range scan of `validateScoresClient`: for every off-diagonal,
non-null cell with `val < 0 || val > 5`, push an error anomaly. -/
def rangeAnomalies (m : Matrix) (fencers : List Fencer) : List Anomaly :=
  (List.range m.length).foldl
    (fun acc i =>
      (List.range m.length).foldl
        (fun acc j =>
          if i = j then acc
          else
            match cell m i j with
            | some val =>
                if val < 0 ∨ val > 5 then
                  acc ++ [⟨Level.error,
                    fencerLabel fencers i ++ " vs opponent " ++ toString (j + 1) ++
                      ": score " ++ toString val ++ " out of 0-5 range"⟩]
                else acc
            | none => acc) acc) []

/-- The pairwise scan (`j` from `i + 1`): when both cells of a pair are
non-null, push a warning if neither is 5 and an error if they are equal. -/
def pairAnomalies (m : Matrix) (fencers : List Fencer) : List Anomaly :=
  (List.range m.length).foldl
    (fun acc i =>
      (List.range m.length).foldl
        (fun acc j =>
          if j ≤ i then acc
          else
            match cell m i j, cell m j i with
            | some a, some b =>
                let acc1 :=
                  if a ≠ 5 ∧ b ≠ 5 then
                    acc ++ [⟨Level.warning,
                      fencerLabel fencers i ++ " (" ++ toString a ++ ") vs " ++
                        fencerLabel fencers j ++ " (" ++ toString b ++ "): neither scored 5"⟩]
                  else acc
                if a = b then
                  acc1 ++ [⟨Level.error,
                    fencerLabel fencers i ++ " vs " ++ fencerLabel fencers j ++
                      ": tied at " ++ toString a ++ "-" ++ toString b⟩]
                else acc1
            | _, _ => acc) acc) []

/-- `validateScoresClient(matrix, fencers)` from
`frontend/src/utils/scoreValidation.js`: empty-matrix short-circuit, then the
anomalies in push order (indicator sum, out-of-range cells, pairwise
tie/no-5). -/
def validateScoresClient (m : Matrix) (fencers : List Fencer) : List Anomaly :=
  if m.length = 0 then [⟨Level.error, "Empty score matrix"⟩]
  else indicatorAnomalies m ++ rangeAnomalies m fencers ++ pairAnomalies m fencers

/-- The result row produced by `computeResultsClient` for one fencer. -/
structure PoolResult where
  last_name : String
  first_name : String
  V : Nat
  TS : Int
  TR : Int
  indicator : Int
  place : Nat
deriving DecidableEq

/-- The victory count of fencer `i`:
`if (sf != null && sa != null && sf > sa) v++`. -/
def vOf (m : Matrix) (i : Nat) : Nat :=
  (List.range m.length).foldl
    (fun v j =>
      if i = j then v
      else
        match cell m i j, cell m j i with
        | some sf, some sa => if sf > sa then v + 1 else v
        | _, _ => v) 0

/-- The unsorted row pushed onto `results` for index `i` (with `place` still
0, as in the source before the final `forEach`). -/
def resultRow (m : Matrix) (fencers : List Fencer) (i : Nat) : PoolResult :=
  { last_name := fencerLabel fencers i
    first_name := ((fencers.get? i).map Fencer.first_name).getD ""
    V := vOf m i
    TS := tsOf m i
    TR := trOf m i
    indicator := tsOf m i - trOf m i
    place := 0 }

/-- The comparator `(a, b) => b.V - a.V || b.indicator - a.indicator || b.TS - a.TS`
as a may-precede relation: `resultLE a b` is true exactly when the comparator
applied to `(a, b)` is `≤ 0`, i.e. when `a` may be placed before `b`. -/
def resultLE (a b : PoolResult) : Bool :=
  decide (b.V < a.V ∨ (a.V = b.V ∧
    (b.indicator < a.indicator ∨ (a.indicator = b.indicator ∧ b.TS ≤ a.TS))))

/-- Stable insertion of `x` into a list sorted by `le`: `x` goes in front of
the first element it may precede. -/
def insertByR {α : Type} (le : α → α → Bool) (x : α) : List α → List α
  | [] => [x]
  | y :: ys => if le x y then x :: y :: ys else y :: insertByR le x ys

/-- Stable sort by the may-precede relation `le` (models the ES2019+
requirement that `Array.prototype.sort` is stable). -/
def sortByR {α : Type} (le : α → α → Bool) : List α → List α
  | [] => []
  | x :: xs => insertByR le x (sortByR le xs)

/-- `computeResultsClient(matrix, fencers)` from
`frontend/src/utils/scoreValidation.js`: per-fencer V/TS/TR rows, sorted by
V desc, indicator desc, TS desc, then `place` assigned `i + 1` in sorted
order. -/
def computeResultsClient (m : Matrix) (fencers : List Fencer) : List PoolResult :=
  let rows := (List.range m.length).map (resultRow m fencers)
  let sorted := sortByR resultLE rows
  sorted.enum.map fun p => { p.2 with place := p.1 + 1 }

/-- `isCellProblematic(row, col, value, cellConf, threshold = 0.7)` from
`frontend/src/utils/scoreValidation.js`. -/
def isCellProblematic (row col : Nat) (value : Option Int) (cellConf : Option ℚ)
    (threshold : ℚ := 7 / 10) : Bool :=
  if row = col then false
  else
    match value with
    | none => true
    | some v =>
        if v < 0 ∨ v > 5 then true
        else
          match cellConf with
          | some c => if c < threshold then true else false
          | none => false

/-- Overwrite `matrix[i][j]` with `v`, leaving the matrix unchanged when the
indices are out of range. -/
def setCell (m : Matrix) (i j : Nat) (v : Option Int) : Matrix :=
  match m.get? i with
  | some row => m.set i (row.set j v)
  | none => m

/-- Null out both cells of the unordered pair `(i, j)`: the matrix in which
that bout was never reported. -/
def eraseBout (m : Matrix) (i j : Nat) : Matrix :=
  setCell (setCell m i j none) j i none

/-- The claim's well-formedness condition on a pool matrix: every row is as
long as the number of rows. -/
def isSquare (m : Matrix) : Prop :=
  ∀ row ∈ m, row.length = m.length

instance (m : Matrix) : Decidable (isSquare m) := by
  unfold isSquare; infer_instance

/-- JS `String.prototype.trim()`: strip leading and trailing whitespace
(modelled structurally over the character list so that concrete instances
evaluate). -/
def jsTrim (s : String) : String :=
  String.mk (((s.data.dropWhile Char.isWhitespace).reverse.dropWhile
    Char.isWhitespace).reverse)

/-- JS `String.prototype.toLowerCase()` (modelled characterwise). -/
def jsToLower (s : String) : String :=
  String.mk (s.data.map Char.toLower)

/-- Split a character list at every newline (the JS `split('\n')` on the
underlying characters): an empty text gives one empty field. -/
def splitLinesAux : List Char → List (List Char)
  | [] => [[]]
  | c :: rest =>
      let r := splitLinesAux rest
      if c = '\n' then [] :: r
      else
        match r with
        | h :: t => (c :: h) :: t
        | [] => [[c]]

/-- JS `seedings.split('\n')`. -/
def jsSplitNewlines (s : String) : List String :=
  (splitLinesAux s.data).map String.mk

/-- The four form fields read by `handleSubmit` in
`frontend/src/components/coach/BoutInput.jsx`; the scores are the results of
`parseInt(scoreX, 10)`, with `none` for `NaN`. -/
structure BoutForm where
  fencerA : String
  fencerB : String
  scoreA : Option Int
  scoreB : Option Int
deriving DecidableEq

/-- The client-side rejection reasons of `handleSubmit` (one per `setError`
early return). -/
inductive BoutReject where
  | missingName
  | sameFencer
  | badScore
  | equalScores
deriving DecidableEq

/-- The payload passed to `api.addCoachBout` on the success path. -/
structure BoutRequest where
  fencer_a : String
  fencer_b : String
  score_a : Int
  score_b : Int
deriving DecidableEq

/-- The validation sequence of `handleSubmit` in `BoutInput.jsx`, in source
order: missing names, identical names (trimmed, case-insensitive), `NaN` or
negative scores, equal scores; only when every check passes is the
`api.addCoachBout` payload produced. -/
def handleSubmitValidate (form : BoutForm) : Except BoutReject BoutRequest :=
  if jsTrim form.fencerA = "" ∨ jsTrim form.fencerB = "" then .error .missingName
  else if jsToLower (jsTrim form.fencerA) = jsToLower (jsTrim form.fencerB) then
    .error .sameFencer
  else
    match form.scoreA, form.scoreB with
    | some sa, some sb =>
        if sa < 0 ∨ sb < 0 then .error .badScore
        else if sa = sb then .error .equalScores
        else .ok ⟨jsTrim form.fencerA, jsTrim form.fencerB, sa, sb⟩
    | _, _ => .error .badScore

/-- `seedings.split('\n').map(s => s.trim()).filter(Boolean)` from
`handleSetBracket` in the coach `DEBracket` component. -/
def parseSeedNames (seedings : String) : List String :=
  ((jsSplitNewlines seedings).map jsTrim).filter (fun s => s ≠ "")

/-- `handleSetBracket`: when fewer than 2 non-empty trimmed names are entered,
set the error text and return without calling `api.setCoachBracket`; otherwise
the parsed name list is sent. -/
def handleSetBracket (seedings : String) : Except String (List String) :=
  let names := parseSeedNames seedings
  if names.length < 2 then
    .error "Enter at least 2 fencer names (one per line, in seed order)."
  else .ok names

/-- One fencer record of the coach ranking table, with the fields that the
row rendering of `frontend/src/components/coach/FencerList.jsx` reads.
Optional fields model JS `undefined` reached through `?.`. -/
structure FencerRecord where
  first_name : String
  last_name : String
  club : String
  rating : String
  strength : Option ℚ
  win_prob : Option ℚ
  rank : Option Nat
  wins : Nat
  losses : Nat
  td : Int
  has_bouts : Bool
deriving DecidableEq

/-- The value shown in one table cell of a `FencerList` row. -/
inductive CellText where
  | dash
  | blank
  | natVal (n : Nat)
  | numVal (q : ℚ)
  | pctVal (q : ℚ)
  | recordVal (w l : Nat)
  | intVal (z : Int)
deriving DecidableEq

/-- The rendered content of one `FencerList` table row. -/
structure RenderedRow where
  rank : CellText
  name : String
  activeBadge : Bool
  club : String
  rating : String
  strength : CellText
  strengthMuted : Bool
  win_prob : CellText
  record : CellText
  td : CellText
deriving DecidableEq

/-- The row rendering of `FencerList.jsx` (lines 126–178): every data cell
falls back to an em dash when `has_bouts` is false, except the strength cell,
which shows `f.strength?.toFixed(2)` in both branches (merely muted when
`has_bouts` is false). `numVal`/`pctVal` carry the rendered number; `blank`
is a JS `undefined` rendered as nothing. -/
def renderFencerRow (f : FencerRecord) : RenderedRow :=
  { rank :=
      if f.has_bouts then
        match f.rank with
        | some r => CellText.natVal r
        | none => CellText.blank
      else CellText.dash
    name := f.first_name ++ " " ++ f.last_name
    activeBadge := f.has_bouts
    club := if f.club = "" then "—" else f.club
    rating := if f.rating = "" then "U" else f.rating
    strength :=
      match f.strength with
      | some s => CellText.numVal s
      | none => CellText.blank
    strengthMuted := !f.has_bouts
    win_prob :=
      if f.has_bouts then
        match f.win_prob with
        | some p => CellText.pctVal p
        | none => CellText.blank
      else CellText.dash
    record := if f.has_bouts then CellText.recordVal f.wins f.losses else CellText.dash
    td := if f.has_bouts then CellText.intVal f.td else CellText.dash }

/-- One element of `pool.submission.results` as read by
`frontend/src/components/public/EventLeaderboard.jsx` (`r.name`, `r.V`,
`r.TS`, `r.TR`). -/
structure PoolResultEntry where
  name : String
  V : Nat
  TS : Int
  TR : Int
deriving DecidableEq

/-- One pool as read by `EventLeaderboard`: its event name, the status of its
submission, its fencer list (whose length is `poolSize`) and the approved
result rows. -/
structure PoolData where
  event : String
  submission_status : String
  fencers : List Fencer
  results : List PoolResultEntry
deriving DecidableEq

/-- One aggregated entry of `fencerMap` in `EventLeaderboard`. -/
structure LeaderEntry where
  name : String
  club : String
  rating : String
  V : Nat
  L : Int
  TS : Int
  TR : Int
  poolCount : Nat
deriving DecidableEq

/-- The freshly created `fencerMap[name]` object: club and rating looked up in
the pool's fencer list by full display name, all tallies zero. -/
def initLeaderEntry (fencerList : List Fencer) (name : String) : LeaderEntry :=
  let fencerInfo := fencerList.find? fun f =>
    decide (f.first_name ++ " " ++ f.last_name = name)
  { name := name
    club := (fencerInfo.map Fencer.club).getD ""
    rating := (fencerInfo.map Fencer.rating).getD ""
    V := 0, L := 0, TS := 0, TR := 0, poolCount := 0 }

/-- The in-place mutation of one `fencerMap` entry for one result row:
`f.V += v; f.L += (poolSize - 1) - v; f.TS += r.TS; f.TR += r.TR;
f.poolCount += 1`. -/
def applyResult (e : LeaderEntry) (r : PoolResultEntry) (poolSize : Nat) : LeaderEntry :=
  { e with
    V := e.V + r.V
    L := e.L + ((poolSize : Int) - 1 - (r.V : Int))
    TS := e.TS + r.TS
    TR := e.TR + r.TR
    poolCount := e.poolCount + 1 }

/-- Processing one result row `r` of a pool against the accumulated
`fencerMap` (an association list in insertion order, as JS object keys are):
skip a missing name, update the existing entry, or create and update a fresh
one. -/
def upsertResult (fencerList : List Fencer) (poolSize : Nat)
    (acc : List LeaderEntry) (r : PoolResultEntry) : List LeaderEntry :=
  if r.name = "" then acc
  else if acc.any (fun e => decide (e.name = r.name)) then
    acc.map fun e => if e.name = r.name then applyResult e r poolSize else e
  else acc ++ [applyResult (initLeaderEntry fencerList r.name) r poolSize]

/-- The double loop of `EventLeaderboard` that folds every result row of every
pool of the event into `fencerMap`. -/
def aggregatePools (pools : List PoolData) : List LeaderEntry :=
  pools.foldl
    (fun acc p => p.results.foldl (upsertResult p.fencers p.fencers.length) acc) []

/-- The leaderboard comparator (V desc, indicator desc, TS desc) as a
may-precede relation, like `resultLE`. -/
def leaderLE (a b : LeaderEntry) : Bool :=
  decide (b.V < a.V ∨ (a.V = b.V ∧
    ((b.TS - b.TR) < (a.TS - a.TR) ∨
      ((a.TS - a.TR) = (b.TS - b.TR) ∧ b.TS ≤ a.TS))))

/-- The leaderboard of one event: filter the pools to this event's approved
ones, aggregate, and rank. -/
def eventLeaderboard (pools : List PoolData) (eventName : String) : List LeaderEntry :=
  let eventPools := pools.filter fun p =>
    decide (p.event = eventName) && decide (p.submission_status = "approved")
  sortByR leaderLE (aggregatePools eventPools)

/-- The loss amounts `(poolSize - 1) - V` that the pools charge to `name`,
one per result row bearing that name, in pool order. -/
def lossContributions (pools : List PoolData) (name : String) : List Int :=
  pools.flatMap fun p =>
    (p.results.filter fun r => decide (r.name = name)).map fun r =>
      (p.fencers.length : Int) - 1 - (r.V : Int)

/-- The approved results stored with a pool carry a full display name; this
rebuilds such rows from `computeResultsClient` output (used to relate the
public leaderboard to the pool computation on concrete pools). -/
def poolEntriesOf (m : Matrix) (fencers : List Fencer) : List PoolResultEntry :=
  (computeResultsClient m fencers).map fun r =>
    ⟨r.first_name ++ " " ++ r.last_name, r.V, r.TS, r.TR⟩

/-! ## Helper lemmas -/

lemma foldl_eq_add_sum {β M : Type} [AddCommMonoid M] (step : M → β → M) (g : β → M)
    (hstep : ∀ acc b, step acc b = acc + g b) :
    ∀ (l : List β) (init : M), l.foldl step init = init + (l.map g).sum := by
  intro l
  induction l with
  | nil => intro init; simp
  | cons b l ih =>
      intro init
      rw [List.foldl_cons, hstep, ih, List.map_cons, List.sum_cons, add_assoc]

lemma range_map_sum {M : Type} [AddCommMonoid M] (g : ℕ → M) (n : ℕ) :
    ((List.range n).map g).sum = ∑ j in Finset.range n, g j := by
  induction n with
  | zero => simp
  | succ n ih =>
      rw [List.range_succ, List.map_append, List.sum_append, Finset.sum_range_succ, ih]
      simp

lemma tsOf_eq_sum (m : Matrix) (i : Nat) :
    tsOf m i = ∑ j in Finset.range m.length, (if i = j then 0 else (cell m i j).getD 0) := by
  have hstep : ∀ (acc : Int) (j : Nat),
      (if i = j then acc else
        match cell m i j with
        | some v => acc + v
        | none => acc) =
      acc + (if i = j then 0 else (cell m i j).getD 0) := by
    intro acc j
    by_cases h : i = j
    · simp [h]
    · cases hc : cell m i j <;> simp [h, hc]
  unfold tsOf
  rw [foldl_eq_add_sum _ _ hstep, zero_add, range_map_sum]

lemma trOf_eq_sum (m : Matrix) (i : Nat) :
    trOf m i = ∑ j in Finset.range m.length, (if j = i then 0 else (cell m j i).getD 0) := by
  have hstep : ∀ (acc : Int) (j : Nat),
      (if i = j then acc else
        match cell m j i with
        | some v => acc + v
        | none => acc) =
      acc + (if j = i then 0 else (cell m j i).getD 0) := by
    intro acc j
    by_cases h : i = j
    · simp [h]
    · have h2 : ¬ j = i := fun hji => h hji.symm
      cases hc : cell m j i <;> simp [h, h2, hc]
  unfold trOf
  rw [foldl_eq_add_sum _ _ hstep, zero_add, range_map_sum]

/-- The indicator sum computed by `validateScoresClient` from the matrix
itself is identically zero: every non-null off-diagonal cell is added once to
a touches-scored tally and once to a touches-received tally. -/
lemma indSumClient_eq_zero (m : Matrix) : indSumClient m = 0 := by
  unfold indSumClient
  rw [foldl_eq_add_sum _ (fun i => tsOf m i - trOf m i) (fun _ _ => rfl), zero_add,
    range_map_sum]
  simp only [tsOf_eq_sum, trOf_eq_sum]
  rw [Finset.sum_sub_distrib]
  rw [show (∑ i in Finset.range m.length, ∑ j in Finset.range m.length,
        (if j = i then 0 else (cell m j i).getD 0)) =
      ∑ j in Finset.range m.length, ∑ i in Finset.range m.length,
        (if j = i then 0 else (cell m j i).getD 0) from Finset.sum_comm]
  exact sub_self _

lemma indicatorAnomalies_eq_nil (m : Matrix) : indicatorAnomalies m = [] := by
  unfold indicatorAnomalies
  simp [indSumClient_eq_zero]

/-- With the indicator branch dead, `validateScoresClient` is the empty-matrix
check followed by the range and pair anomalies. -/
lemma validateScoresClient_eq (m : Matrix) (fencers : List Fencer) :
    validateScoresClient m fencers =
      if m.length = 0 then [⟨Level.error, "Empty score matrix"⟩]
      else rangeAnomalies m fencers ++ pairAnomalies m fencers := by
  unfold validateScoresClient
  rw [indicatorAnomalies_eq_nil, List.nil_append]

/-! ## Claims -/

/-- C1: on the 3×3 pool matrix `[[-,5,5],[3,-,5],[2,1,-]]` with fencers A, B,
C, `computeResultsClient` reports for fencer A exactly 2 victories, 10 touches
scored, and 5 touches received (and, in full, indicator 5 and place 1). -/
theorem claimC1 :
    (computeResultsClient
        [[none, some 5, some 5], [some 3, none, some 5], [some 2, some 1, none]]
        [⟨"Al", "A", "", ""⟩, ⟨"Bo", "B", "", ""⟩, ⟨"Ca", "C", "", ""⟩]).find?
        (fun r => r.last_name == "A")
      = some ⟨"A", "Al", 2, 10, 5, 5, 1⟩ := by
  decide

/-- C2: for every pool score matrix whose derived indicator sum is nonzero,
`validateScoresClient` reports an error-level anomaly. Stated disjunctively
because the antecedent is unsatisfiable: the indicator sum the validator
derives from the matrix is identically zero (the first disjunct always holds;
see C3), so the rejection guard can never be exercised by any input. -/
theorem claimC2 :
    ∀ (m : Matrix) (fencers : List Fencer),
      indSumClient m = 0 ∨ ∃ a ∈ validateScoresClient m fencers, a.level = Level.error :=
  fun m _ => Or.inl (indSumClient_eq_zero m)

/-- C3: the indicator sum that `validateScoresClient` computes from the matrix
is identically zero for every input, and consequently the `Indicator sum`
error branch contributes nothing to the anomaly list for any input. -/
theorem claimC3 :
    ∀ m : Matrix, indSumClient m = 0 ∧ indicatorAnomalies m = [] :=
  fun m => ⟨indSumClient_eq_zero m, indicatorAnomalies_eq_nil m⟩

lemma foldl_rel {α β : Type} (R : α → α → Prop) (f g : α → β → α)
    (hstep : ∀ a b x, R a b → R (f a x) (g b x)) :
    ∀ (l : List β) (a b : α), R a b → R (l.foldl f a) (l.foldl g b) := by
  intro l
  induction l with
  | nil => intro a b h; exact h
  | cons x l ih => intro a b h; exact ih _ _ (hstep a b x h)

/-- The anomaly levels emitted by the range scan do not depend on the fencer
list (only the message names do). -/
lemma rangeAnomalies_levels (m : Matrix) (fencers fencers' : List Fencer) :
    (rangeAnomalies m fencers).map Anomaly.level
      = (rangeAnomalies m fencers').map Anomaly.level := by
  unfold rangeAnomalies
  refine foldl_rel (fun (a b : List Anomaly) => a.map Anomaly.level = b.map Anomaly.level)
    _ _ (fun a b i hR => ?_) _ _ _ rfl
  refine foldl_rel (fun (a b : List Anomaly) => a.map Anomaly.level = b.map Anomaly.level)
    _ _ (fun a b j hR => ?_) _ _ _ hR
  by_cases h : i = j
  · simpa [h] using hR
  · cases hc : cell m i j with
    | none => simpa [h, hc] using hR
    | some val =>
        by_cases hr : val < 0 ∨ val > 5
        · simp [h, hc, hr, List.map_append, hR]
        · simpa [h, hc, hr] using hR

/-- The anomaly levels emitted by the pairwise scan do not depend on the
fencer list. -/
lemma pairAnomalies_levels (m : Matrix) (fencers fencers' : List Fencer) :
    (pairAnomalies m fencers).map Anomaly.level
      = (pairAnomalies m fencers').map Anomaly.level := by
  unfold pairAnomalies
  refine foldl_rel (fun (a b : List Anomaly) => a.map Anomaly.level = b.map Anomaly.level)
    _ _ (fun a b i hR => ?_) _ _ _ rfl
  refine foldl_rel (fun (a b : List Anomaly) => a.map Anomaly.level = b.map Anomaly.level)
    _ _ (fun a b j hR => ?_) _ _ _ hR
  by_cases h : j ≤ i
  · simpa [h] using hR
  · cases hc : cell m i j with
    | none => simpa [h, hc] using hR
    | some x =>
        cases hc2 : cell m j i with
        | none => simpa [h, hc, hc2] using hR
        | some y =>
            by_cases he : x = y
            · subst he
              by_cases hw : x = 5 <;> simp [h, hc, hc2, hw, List.map_append, hR]
            · by_cases hx : x = 5
              · subst hx
                by_cases hy : y = 5
                · exact absurd hy.symm he
                · simp [h, hc, hc2, he, hy, List.map_append, hR]
              · by_cases hy : y = 5
                · subst hy
                  simp [h, hc, hc2, he, hx, List.map_append, hR]
                · simp [h, hc, hc2, he, hx, hy, List.map_append, hR]

/-- C4 counterexample: a non-square matrix, and a matrix whose dimension does
not match the fencer list length, are fed to `validateScoresClient` and come
back with an empty anomaly list — no error-level anomaly, so the claimed
rejection does not happen. -/
theorem claimC4_counterexample :
    ¬ isSquare [[none, some 5], [some 3]] ∧
    validateScoresClient [[none, some 5], [some 3]]
      [⟨"Al", "A", "", ""⟩, ⟨"Bo", "B", "", ""⟩] = [] ∧
    ([[(none : Option Int)]].length
      ≠ ([⟨"Al", "A", "", ""⟩, ⟨"Bo", "B", "", ""⟩] : List Fencer).length) ∧
    validateScoresClient [[none]] [⟨"Al", "A", "", ""⟩, ⟨"Bo", "B", "", ""⟩] = [] := by
  decide

/-- C4 amended: client-side pool validation rejects only the empty matrix on
structural grounds. It performs no squareness or fencer-count check — a
non-square matrix, or one whose dimension differs from the fencer list
length, can come back with zero anomalies — and the emitted anomaly levels do
not depend on the fencer list at all. -/
theorem claimC4_amended :
    (∀ fencers : List Fencer,
        validateScoresClient [] fencers = [⟨Level.error, "Empty score matrix"⟩]) ∧
    (∀ (m : Matrix) (fencers fencers' : List Fencer),
        (validateScoresClient m fencers).map Anomaly.level
          = (validateScoresClient m fencers').map Anomaly.level) ∧
    validateScoresClient [[none, some 5], [some 3]]
      [⟨"Al", "A", "", ""⟩, ⟨"Bo", "B", "", ""⟩] = [] ∧
    validateScoresClient [[none]] [⟨"Al", "A", "", ""⟩, ⟨"Bo", "B", "", ""⟩] = [] := by
  refine ⟨fun fencers => rfl, fun m fencers fencers' => ?_, by decide, by decide⟩
  by_cases h : m.length = 0
  · simp [validateScoresClient, h]
  · unfold validateScoresClient
    rw [if_neg h, if_neg h, List.map_append, List.map_append, List.map_append,
      List.map_append, rangeAnomalies_levels m fencers fencers',
      pairAnomalies_levels m fencers fencers']

/-- C6: manual single-bout entry rejects equal scores and missing or
identical competitor names, and a rejected bout is atomic: whenever any of
these conditions holds, `handleSubmitValidate` returns an error, so the
`api.addCoachBout` payload is never built and no ingestion call is issued
(the equal-scores condition is phrased on the parsed scores; when either
parse is `NaN` the bout is rejected through the score check as well). -/
theorem claimC6 :
    ∀ form : BoutForm,
      (jsTrim form.fencerA = "" ∨ jsTrim form.fencerB = "" ∨
        jsToLower (jsTrim form.fencerA) = jsToLower (jsTrim form.fencerB) ∨
        (∀ sa sb, form.scoreA = some sa → form.scoreB = some sb → sa = sb)) →
      ∃ e, handleSubmitValidate form = Except.error e := by
  intro form h
  unfold handleSubmitValidate
  by_cases h1 : jsTrim form.fencerA = "" ∨ jsTrim form.fencerB = ""
  · exact ⟨BoutReject.missingName, by rw [if_pos h1]⟩
  · rw [if_neg h1]
    by_cases h2 : jsToLower (jsTrim form.fencerA) = jsToLower (jsTrim form.fencerB)
    · exact ⟨BoutReject.sameFencer, by rw [if_pos h2]⟩
    · rw [if_neg h2]
      have h4 : ∀ sa sb, form.scoreA = some sa → form.scoreB = some sb → sa = sb := by
        rcases h with h | h | h | h
        · exact absurd (Or.inl h) h1
        · exact absurd (Or.inr h) h1
        · exact absurd h h2
        · exact h
      cases hsa : form.scoreA with
      | none => exact ⟨BoutReject.badScore, by cases form.scoreB <;> rfl⟩
      | some sa =>
          cases hsb : form.scoreB with
          | none => exact ⟨BoutReject.badScore, rfl⟩
          | some sb =>
              have heq : sa = sb := h4 sa sb hsa hsb
              by_cases h3 : sa < 0 ∨ sb < 0
              · exact ⟨BoutReject.badScore, by simp [h3]⟩
              · refine ⟨BoutReject.equalScores, ?_⟩
                simp [h3, heq]
                omega

/-- C6 witness: a concrete form with equal scores (5–5 between two distinct
fencers) is rejected. -/
theorem claimC6_witness :
    ∃ e, handleSubmitValidate ⟨"Alice", "Bob", some 5, some 5⟩ = Except.error e :=
  claimC6 ⟨"Alice", "Bob", some 5, some 5⟩
    (Or.inr (Or.inr (Or.inr fun sa sb ha hb => by
      injection ha with ha2
      injection hb with hb2
      omega)))

/-- C7: for every seed text whose parsed list (`split('\n')`, trim, drop
empties) has fewer than 2 names, `handleSetBracket` reports an error and the
bracket-set request payload is not produced, so `api.setCoachBracket` is not
called. -/
theorem claimC7 :
    ∀ seedings : String,
      (parseSeedNames seedings).length < 2 →
      handleSetBracket seedings =
        Except.error "Enter at least 2 fencer names (one per line, in seed order)." := by
  intro seedings h
  unfold handleSetBracket
  rw [if_pos h]

/-- C7 witness: the empty seed text parses to no names and is rejected. -/
theorem claimC7_witness :
    (parseSeedNames "").length < 2 ∧
      handleSetBracket "" =
        Except.error "Enter at least 2 fencer names (one per line, in seed order)." :=
  ⟨by decide, claimC7 "" (by decide)⟩

/-- C9: a fencer row with `has_bouts = false` renders an em dash in the rank,
win-probability, record and touch-differential cells, but still renders the
fencer's strength value in the strength cell. -/
theorem claimC9 :
    ∀ f : FencerRecord, f.has_bouts = false →
      (renderFencerRow f).rank = CellText.dash ∧
      (renderFencerRow f).win_prob = CellText.dash ∧
      (renderFencerRow f).record = CellText.dash ∧
      (renderFencerRow f).td = CellText.dash ∧
      ∀ s, f.strength = some s → (renderFencerRow f).strength = CellText.numVal s := by
  intro f h
  refine ⟨?_, ?_, ?_, ?_, ?_⟩ <;> simp [renderFencerRow, h]
  intro s hs
  rw [hs]

/-- C9 witness: a concrete record with no bouts and strength 4 shows dashes
everywhere except the strength cell, which shows 4. -/
theorem claimC9_witness :
    (renderFencerRow ⟨"Al", "A", "X", "U", some 4, some (1 / 2), none, 0, 0, 0, false⟩).rank
        = CellText.dash ∧
      (renderFencerRow ⟨"Al", "A", "X", "U", some 4, some (1 / 2), none, 0, 0, 0, false⟩).strength
        = CellText.numVal 4 :=
  ⟨(claimC9 _ rfl).1, (claimC9 _ rfl).2.2.2.2 4 rfl⟩

lemma length_setCell (m : Matrix) (i j : Nat) (v : Option Int) :
    (setCell m i j v).length = m.length := by
  unfold setCell
  cases m.get? i <;> simp

lemma length_eraseBout (m : Matrix) (i j : Nat) :
    (eraseBout m i j).length = m.length := by
  unfold eraseBout
  rw [length_setCell, length_setCell]

lemma cell_setCell_none (m : Matrix) (i j a b : Nat) :
    cell (setCell m i j none) a b = if a = i ∧ b = j then none else cell m a b := by
  unfold setCell
  cases hrow : m.get? i with
  | none =>
      by_cases hab : a = i ∧ b = j
      · obtain ⟨ha, hb⟩ := hab
        subst ha; subst hb
        rw [if_pos ⟨rfl, rfl⟩]
        unfold cell
        rw [hrow]
        rfl
      · rw [if_neg hab]
  | some row =>
      have hlt : i < m.length := by
        by_contra hge
        rw [List.get?_eq_none.mpr (Nat.le_of_not_lt hge)] at hrow
        exact Option.noConfusion hrow
      by_cases ha : a = i
      · subst ha
        by_cases hb : b = j
        · subst hb
          rw [if_pos ⟨rfl, rfl⟩]
          unfold cell
          rw [List.get?_set_eq_of_lt _ hlt]
          show ((row.set b none).get? b).join = none
          by_cases hbl : b < row.length
          · rw [List.get?_set_eq_of_lt _ hbl]
            rfl
          · rw [List.set_eq_of_length_le (Nat.le_of_not_lt hbl),
              List.get?_eq_none.mpr (Nat.le_of_not_lt hbl)]
            rfl
        · rw [if_neg (fun hcon => hb hcon.2)]
          unfold cell
          rw [List.get?_set_eq_of_lt _ hlt, hrow]
          show ((row.set j none).get? b).join = (row.get? b).join
          rw [List.get?_set_ne _ _ (fun hcon => hb hcon.symm)]
      · rw [if_neg (fun hcon => ha hcon.1)]
        unfold cell
        rw [List.get?_set_ne _ _ (fun hcon => ha hcon.symm)]

lemma cell_eraseBout (m : Matrix) (i j a b : Nat) :
    cell (eraseBout m i j) a b =
      if (a = i ∧ b = j) ∨ (a = j ∧ b = i) then none else cell m a b := by
  unfold eraseBout
  rw [cell_setCell_none, cell_setCell_none]
  by_cases h1 : a = j ∧ b = i
  · simp [h1]
  · by_cases h2 : a = i ∧ b = j <;> simp [h1, h2]

/-- Removing one touches value from a row removes exactly its contribution
from that fencer's touches-scored total. -/
lemma tsOf_add_of_erased (m e : Matrix) (hlen : e.length = m.length) (p q : Nat)
    (hpq : p ≠ q) (hq : q < m.length) (hc : cell e p q = none)
    (hother : ∀ x, x ≠ q → cell e p x = cell m p x) :
    tsOf m p = tsOf e p + (cell m p q).getD 0 := by
  rw [tsOf_eq_sum, tsOf_eq_sum, hlen]
  have hq2 : q ∈ Finset.range m.length := Finset.mem_range.mpr hq
  rw [← Finset.sum_erase_add _ _ hq2, ← Finset.sum_erase_add _ _ hq2]
  rw [if_neg hpq, if_neg hpq, hc]
  have hS : (∑ x in (Finset.range m.length).erase q,
        if p = x then 0 else (cell e p x).getD 0)
      = ∑ x in (Finset.range m.length).erase q,
        if p = x then 0 else (cell m p x).getD 0 := by
    refine Finset.sum_congr rfl fun x hx => ?_
    by_cases hpx : p = x
    · simp [hpx]
    · rw [if_neg hpx, if_neg hpx, hother x (Finset.ne_of_mem_erase hx)]
  rw [hS]
  simp [add_assoc]

/-- Removing one touches value from a column removes exactly its contribution
from that fencer's touches-received total. -/
lemma trOf_add_of_erased (m e : Matrix) (hlen : e.length = m.length) (p q : Nat)
    (hpq : p ≠ q) (hq : q < m.length) (hc : cell e q p = none)
    (hother : ∀ x, x ≠ q → cell e x p = cell m x p) :
    trOf m p = trOf e p + (cell m q p).getD 0 := by
  rw [trOf_eq_sum, trOf_eq_sum, hlen]
  have hq2 : q ∈ Finset.range m.length := Finset.mem_range.mpr hq
  rw [← Finset.sum_erase_add _ _ hq2, ← Finset.sum_erase_add _ _ hq2]
  have hqp : ¬ q = p := fun hh => hpq hh.symm
  rw [if_neg hqp, if_neg hqp, hc]
  have hS : (∑ x in (Finset.range m.length).erase q,
        if x = p then 0 else (cell e x p).getD 0)
      = ∑ x in (Finset.range m.length).erase q,
        if x = p then 0 else (cell m x p).getD 0 := by
    refine Finset.sum_congr rfl fun x hx => ?_
    by_cases hpx : x = p
    · simp [hpx]
    · rw [if_neg hpx, if_neg hpx, hother x (Finset.ne_of_mem_erase hx)]
  rw [hS]
  simp [add_assoc]

/-- Erasing a pair in which at least one cell is null never changes any
fencer's victory count: a half-reported pair can contribute no victory. -/
lemma vOf_eraseBout (m : Matrix) (i j : Nat) (hij : i ≠ j)
    (h : cell m i j = none ∨ cell m j i = none) (k : Nat) :
    vOf (eraseBout m i j) k = vOf m k := by
  unfold vOf
  rw [length_eraseBout]
  have hstep : (fun (v : Nat) (x : Nat) =>
      if k = x then v
      else
        match cell (eraseBout m i j) k x, cell (eraseBout m i j) x k with
        | some sf, some sa => if sf > sa then v + 1 else v
        | _, _ => v) =
      (fun (v : Nat) (x : Nat) =>
      if k = x then v
      else
        match cell m k x, cell m x k with
        | some sf, some sa => if sf > sa then v + 1 else v
        | _, _ => v) := by
    funext v x
    by_cases hkx : k = x
    · simp [hkx]
    · rw [if_neg hkx, if_neg hkx, cell_eraseBout, cell_eraseBout]
      by_cases h1 : (k = i ∧ x = j) ∨ (k = j ∧ x = i)
      · have h2 : (x = i ∧ k = j) ∨ (x = j ∧ k = i) := by tauto
        rw [if_pos h1, if_pos h2]
        rcases h1 with ⟨hk, hx⟩ | ⟨hk, hx⟩
        · subst hk; subst hx
          rcases h with hnull | hnull <;> simp [hnull]
        · subst hk; subst hx
          rcases h with hnull | hnull <;> simp [hnull]
      · have h2 : ¬ ((x = i ∧ k = j) ∨ (x = j ∧ k = i)) := by tauto
        rw [if_neg h1, if_neg h2]
  rw [hstep]

/-- C5 counterexample: in the matrix `[[null,5],[null,null]]` the only pair
(0,1) has a null cell (`matrix[1][0]`), yet it is not skipped by
`computeResultsClient`: fencer A is credited 5 touches scored (not 0), and
erasing the pair changes the computed results. -/
theorem claimC5_counterexample :
    cell [[none, some 5], [none, none]] 1 0 = none ∧
    (computeResultsClient [[none, some 5], [none, none]]
        [⟨"Al", "A", "", ""⟩, ⟨"Bo", "B", "", ""⟩]).find? (fun r => r.last_name == "A")
      = some ⟨"A", "Al", 0, 5, 0, 5, 1⟩ ∧
    computeResultsClient (eraseBout [[none, some 5], [none, none]] 0 1)
        [⟨"Al", "A", "", ""⟩, ⟨"Bo", "B", "", ""⟩]
      ≠ computeResultsClient [[none, some 5], [none, none]]
        [⟨"Al", "A", "", ""⟩, ⟨"Bo", "B", "", ""⟩] := by
  decide

/-- C5 amended: a pair (i, j) with either cell null contributes nothing to
either fencer's victory count (erasing the pair changes no fencer's V), but
it is not skipped for touches: each cell still contributes its value to the
row fencer's touches scored and to the column fencer's touches received, so
only a pair with both cells null contributes nothing at all. -/
theorem claimC5_amended :
    ∀ (m : Matrix) (i j : Nat), i < m.length → j < m.length → i ≠ j →
      (cell m i j = none ∨ cell m j i = none) →
      (∀ k, vOf (eraseBout m i j) k = vOf m k) ∧
      tsOf m i = tsOf (eraseBout m i j) i + (cell m i j).getD 0 ∧
      trOf m i = trOf (eraseBout m i j) i + (cell m j i).getD 0 ∧
      tsOf m j = tsOf (eraseBout m i j) j + (cell m j i).getD 0 ∧
      trOf m j = trOf (eraseBout m i j) j + (cell m i j).getD 0 := by
  intro m i j hi hj hij h
  have hlen := length_eraseBout m i j
  have hji : j ≠ i := fun hh => hij hh.symm
  refine ⟨vOf_eraseBout m i j hij h, ?_, ?_, ?_, ?_⟩
  · refine tsOf_add_of_erased m _ hlen i j hij hj ?_ ?_
    · rw [cell_eraseBout]; simp
    · intro x hx
      rw [cell_eraseBout]
      rw [if_neg (by simp [hx, hij])]
  · refine trOf_add_of_erased m _ hlen i j hij hj ?_ ?_
    · rw [cell_eraseBout]; simp
    · intro x hx
      rw [cell_eraseBout]
      rw [if_neg (by simp [hx, hij])]
  · refine tsOf_add_of_erased m _ hlen j i hji hi ?_ ?_
    · rw [cell_eraseBout]; simp
    · intro x hx
      rw [cell_eraseBout]
      rw [if_neg (by simp [hx, hji])]
  · refine trOf_add_of_erased m _ hlen j i hji hi ?_ ?_
    · rw [cell_eraseBout]; simp
    · intro x hx
      rw [cell_eraseBout]
      rw [if_neg (by simp [hx, hji])]

/-- C5 witness: the amended theorem applied to the half-reported pair of
`[[null,5],[null,null]]`. -/
theorem claimC5_witness :
    vOf (eraseBout [[none, some 5], [none, none]] 0 1) 0
        = vOf [[none, some 5], [none, none]] 0 ∧
      tsOf [[none, some 5], [none, none]] 0
        = tsOf (eraseBout [[none, some 5], [none, none]] 0 1) 0
          + (cell [[none, some 5], [none, none]] 0 1).getD 0 :=
  ⟨(claimC5_amended [[none, some 5], [none, none]] 0 1 (by decide) (by decide)
      (by decide) (Or.inr (by decide))).1 0,
    (claimC5_amended [[none, some 5], [none, none]] 0 1 (by decide) (by decide)
      (by decide) (Or.inr (by decide))).2.1⟩

lemma foldl_append_extend {α β : Type} (step : List α → β → List α)
    (h : ∀ acc x, ∃ t, step acc x = acc ++ t) :
    ∀ (l : List β) (acc : List α), ∃ t, l.foldl step acc = acc ++ t := by
  intro l
  induction l with
  | nil => intro acc; exact ⟨[], by simp⟩
  | cons y ys ih =>
      intro acc
      obtain ⟨t1, ht1⟩ := h acc y
      obtain ⟨t2, ht2⟩ := ih (step acc y)
      exact ⟨t1 ++ t2, by rw [List.foldl_cons, ht2, ht1, List.append_assoc]⟩

lemma mem_foldl_of_mem_step {α β : Type} (step : List α → β → List α)
    (h : ∀ acc x, ∃ t, step acc x = acc ++ t) (a : α) (x : β)
    (ha : ∀ acc, a ∈ step acc x) :
    ∀ (l : List β), x ∈ l → ∀ acc, a ∈ l.foldl step acc := by
  intro l
  induction l with
  | nil => intro hx; exact absurd hx (List.not_mem_nil x)
  | cons y ys ih =>
      intro hx acc
      rw [List.foldl_cons]
      rcases List.mem_cons.mp hx with hxy | hxys
      · subst hxy
        obtain ⟨t, ht⟩ := foldl_append_extend step h ys (step acc x)
        rw [ht]
        exact List.mem_append.mpr (Or.inl (ha acc))
      · exact ih hxys (step acc y)

/-- The range scan really pushes an error anomaly for every off-diagonal
non-null out-of-range cell of the looped-over index square. -/
lemma rangeAnomaly_mem (m : Matrix) (fencers : List Fencer) (i j : Nat) (v : Int)
    (hi : i < m.length) (hj : j < m.length) (hij : i ≠ j)
    (hc : cell m i j = some v) (hr : v < 0 ∨ v > 5) :
    (⟨Level.error, fencerLabel fencers i ++ " vs opponent " ++ toString (j + 1) ++
        ": score " ++ toString v ++ " out of 0-5 range"⟩ : Anomaly)
      ∈ rangeAnomalies m fencers := by
  have h_inner_ext : ∀ (a : Nat) (acc : List Anomaly) (x : Nat),
      ∃ t, (if a = x then acc
        else
          match cell m a x with
          | some val =>
              if val < 0 ∨ val > 5 then
                acc ++ [⟨Level.error,
                  fencerLabel fencers a ++ " vs opponent " ++ toString (x + 1) ++
                    ": score " ++ toString val ++ " out of 0-5 range"⟩]
              else acc
          | none => acc) = acc ++ t := by
    intro a acc x
    by_cases h : a = x
    · exact ⟨[], by simp [h]⟩
    · cases hc2 : cell m a x with
      | none => exact ⟨[], by simp [h, hc2]⟩
      | some val =>
          by_cases hr2 : val < 0 ∨ val > 5
          · exact ⟨[⟨Level.error,
              fencerLabel fencers a ++ " vs opponent " ++ toString (x + 1) ++
                ": score " ++ toString val ++ " out of 0-5 range"⟩],
              by simp [h, hc2, hr2]⟩
          · exact ⟨[], by simp [h, hc2, hr2]⟩
  unfold rangeAnomalies
  refine mem_foldl_of_mem_step _ (fun acc x => foldl_append_extend _ (h_inner_ext x) _ acc)
    _ i (fun acc => ?_) _ (List.mem_range.mpr hi) []
  refine mem_foldl_of_mem_step _ (h_inner_ext i) _ j (fun acc2 => ?_) _
    (List.mem_range.mpr hj) acc
  simp [hij, hc, hr]

lemma tsOf_congr (m m' : Matrix) (hlen : m.length = m'.length)
    (hcell : ∀ i j, i ≠ j → cell m i j = cell m' i j) (i : Nat) :
    tsOf m i = tsOf m' i := by
  unfold tsOf
  rw [hlen]
  refine foldl_rel Eq _ _ (fun a b j hab => ?_) _ _ _ rfl
  subst hab
  by_cases h : i = j
  · simp [h]
  · rw [if_neg h, if_neg h, hcell i j h]

lemma trOf_congr (m m' : Matrix) (hlen : m.length = m'.length)
    (hcell : ∀ i j, i ≠ j → cell m i j = cell m' i j) (i : Nat) :
    trOf m i = trOf m' i := by
  unfold trOf
  rw [hlen]
  refine foldl_rel Eq _ _ (fun a b j hab => ?_) _ _ _ rfl
  subst hab
  by_cases h : i = j
  · simp [h]
  · rw [if_neg h, if_neg h, hcell j i (fun hh => h hh.symm)]

lemma vOf_congr (m m' : Matrix) (hlen : m.length = m'.length)
    (hcell : ∀ i j, i ≠ j → cell m i j = cell m' i j) (i : Nat) :
    vOf m i = vOf m' i := by
  unfold vOf
  rw [hlen]
  refine foldl_rel Eq _ _ (fun a b j hab => ?_) _ _ _ rfl
  subst hab
  by_cases h : i = j
  · simp [h]
  · rw [if_neg h, if_neg h, hcell i j h, hcell j i (fun hh => h hh.symm)]

lemma rangeAnomalies_congr (m m' : Matrix) (fencers : List Fencer)
    (hlen : m.length = m'.length)
    (hcell : ∀ i j, i ≠ j → cell m i j = cell m' i j) :
    rangeAnomalies m fencers = rangeAnomalies m' fencers := by
  unfold rangeAnomalies
  rw [hlen]
  refine foldl_rel Eq _ _ (fun a b i hab => ?_) _ _ _ rfl
  subst hab
  refine foldl_rel Eq _ _ (fun a b j hab => ?_) _ _ _ rfl
  subst hab
  by_cases h : i = j
  · simp [h]
  · rw [if_neg h, if_neg h, hcell i j h]

lemma pairAnomalies_congr (m m' : Matrix) (fencers : List Fencer)
    (hlen : m.length = m'.length)
    (hcell : ∀ i j, i ≠ j → cell m i j = cell m' i j) :
    pairAnomalies m fencers = pairAnomalies m' fencers := by
  unfold pairAnomalies
  rw [hlen]
  refine foldl_rel Eq _ _ (fun a b i hab => ?_) _ _ _ rfl
  subst hab
  refine foldl_rel Eq _ _ (fun a b j hab => ?_) _ _ _ rfl
  subst hab
  by_cases h : j ≤ i
  · simp [h]
  · have hij : i ≠ j := fun hh => h (Nat.le_of_eq hh.symm)
    rw [if_neg h, if_neg h, hcell i j hij, hcell j i (fun hh => hij hh.symm)]

lemma indicatorAnomalies_congr (m m' : Matrix) :
    indicatorAnomalies m = indicatorAnomalies m' := by
  rw [indicatorAnomalies_eq_nil, indicatorAnomalies_eq_nil]

lemma resultRow_congr (m m' : Matrix) (fencers : List Fencer)
    (hlen : m.length = m'.length)
    (hcell : ∀ i j, i ≠ j → cell m i j = cell m' i j) (i : Nat) :
    resultRow m fencers i = resultRow m' fencers i := by
  unfold resultRow
  rw [tsOf_congr m m' hlen hcell, trOf_congr m m' hlen hcell,
    vOf_congr m m' hlen hcell]

lemma validateScoresClient_congr (m m' : Matrix) (fencers : List Fencer)
    (hlen : m.length = m'.length)
    (hcell : ∀ i j, i ≠ j → cell m i j = cell m' i j) :
    validateScoresClient m fencers = validateScoresClient m' fencers := by
  unfold validateScoresClient
  rw [hlen, indicatorAnomalies_congr m m', rangeAnomalies_congr m m' fencers hlen hcell,
    pairAnomalies_congr m m' fencers hlen hcell]

lemma computeResultsClient_congr (m m' : Matrix) (fencers : List Fencer)
    (hlen : m.length = m'.length)
    (hcell : ∀ i j, i ≠ j → cell m i j = cell m' i j) :
    computeResultsClient m fencers = computeResultsClient m' fencers := by
  unfold computeResultsClient
  rw [hlen, List.map_congr_left (fun i _ => resultRow_congr m m' fencers hlen hcell i)]

/-- C8: every off-diagonal non-null cell outside [0, 5] makes
`validateScoresClient` emit an error-level anomaly; the diagonal is
meaningless and ignored — validation and pool results depend only on the
off-diagonal cells (any two matrices of the same dimension agreeing off the
diagonal validate and compute identically), and `isCellProblematic` never
flags a diagonal cell. -/
theorem claimC8 :
    (∀ (m : Matrix) (fencers : List Fencer) (i j : Nat) (v : Int),
        j < m.length → i ≠ j → cell m i j = some v → (v < 0 ∨ v > 5) →
        ∃ a ∈ validateScoresClient m fencers, a.level = Level.error) ∧
    (∀ (m m' : Matrix) (fencers : List Fencer),
        m.length = m'.length → (∀ i j, i ≠ j → cell m i j = cell m' i j) →
        validateScoresClient m fencers = validateScoresClient m' fencers ∧
          computeResultsClient m fencers = computeResultsClient m' fencers) ∧
    (∀ (rc : Nat) (value : Option Int) (conf : Option ℚ) (th : ℚ),
        isCellProblematic rc rc value conf th = false) := by
  refine ⟨?_, ?_, ?_⟩
  · intro m fencers i j v hj hij hc hr
    have hi : i < m.length := by
      by_contra hge
      have hnone : cell m i j = none := by
        unfold cell
        rw [List.get?_eq_none.mpr (Nat.le_of_not_lt hge)]
        rfl
      rw [hnone] at hc
      exact Option.noConfusion hc
    have hmem := rangeAnomaly_mem m fencers i j v hi hj hij hc hr
    refine ⟨⟨Level.error, fencerLabel fencers i ++ " vs opponent " ++ toString (j + 1) ++
      ": score " ++ toString v ++ " out of 0-5 range"⟩, ?_, rfl⟩
    rw [validateScoresClient_eq, if_neg (by omega : ¬ m.length = 0)]
    exact List.mem_append.mpr (Or.inl hmem)
  · intro m m' fencers hlen hcell
    exact ⟨validateScoresClient_congr m m' fencers hlen hcell,
      computeResultsClient_congr m m' fencers hlen hcell⟩
  · intro rc value conf th
    simp [isCellProblematic]

/-- C8 witness: a 7 in an off-diagonal cell produces an error anomaly;
rewriting only the diagonal of a 2×2 matrix leaves validation and results
unchanged; a diagonal 9 is not problematic. -/
theorem claimC8_witness :
    (∃ a ∈ validateScoresClient [[none, some 7], [some 3, none]] [],
        a.level = Level.error) ∧
    validateScoresClient [[some 99, some 5], [some 3, some 0]] []
        = validateScoresClient [[none, some 5], [some 3, none]] [] ∧
    computeResultsClient [[some 99, some 5], [some 3, some 0]] []
        = computeResultsClient [[none, some 5], [some 3, none]] [] ∧
    isCellProblematic 1 1 (some 9) none (7 / 10) = false := by
  have hcells : ∀ i j, i ≠ j →
      cell [[some 99, some 5], [some 3, some 0]] i j
        = cell [[none, some 5], [some 3, none]] i j := by
    intro i j hij
    rcases i with _ | _ | i2 <;> rcases j with _ | _ | j2 <;>
      first
        | rfl
        | exact absurd rfl hij
  have hpair := claimC8.2.1 [[some 99, some 5], [some 3, some 0]]
    [[none, some 5], [some 3, none]] [] rfl hcells
  exact ⟨claimC8.1 [[none, some 7], [some 3, none]] [] 0 1 7 (by decide) (by decide)
      (by decide) (by decide),
    hpair.1, hpair.2,
    claimC8.2.2 1 (some 9) none (7 / 10)⟩

lemma find?_append_aux {α : Type} (l1 l2 : List α) (p : α → Bool) :
    (l1 ++ l2).find? p =
      match l1.find? p with
      | some a => some a
      | none => l2.find? p := by
  induction l1 with
  | nil => simp
  | cons x xs ih =>
      by_cases hx : p x
      · simp [List.find?_cons, hx]
      · simp [List.find?_cons, hx, ih]

lemma mem_insertByR {α : Type} (le : α → α → Bool) (x a : α) :
    ∀ l : List α, a ∈ insertByR le x l ↔ a = x ∨ a ∈ l := by
  intro l
  induction l with
  | nil => simp [insertByR]
  | cons y ys ih =>
      unfold insertByR
      by_cases hle : le x y
      · simp [hle]
      · rw [if_neg hle, List.mem_cons, ih, List.mem_cons]
        tauto

lemma mem_sortByR {α : Type} (le : α → α → Bool) (a : α) :
    ∀ l : List α, a ∈ sortByR le l ↔ a ∈ l := by
  intro l
  induction l with
  | nil => simp [sortByR]
  | cons y ys ih =>
      unfold sortByR
      rw [mem_insertByR, ih, List.mem_cons]

lemma foldl_preserve {α β : Type} (P : α → Prop) (f : α → β → α)
    (h : ∀ a b, P a → P (f a b)) :
    ∀ (l : List β) (a : α), P a → P (l.foldl f a) := by
  intro l
  induction l with
  | nil => intro a ha; exact ha
  | cons x xs ih => intro a ha; exact ih _ (h a x ha)

lemma applyResult_name (e : LeaderEntry) (r : PoolResultEntry) (ps : Nat) :
    (applyResult e r ps).name = e.name := rfl

/-- `upsertResult` preserves the `fencerMap` invariant: entry names are
nonempty and pairwise distinct. -/
lemma upsertResult_invariant (fl : List Fencer) (ps : Nat) (acc : List LeaderEntry)
    (r : PoolResultEntry)
    (h : (∀ e ∈ acc, e.name ≠ "") ∧ (acc.map LeaderEntry.name).Nodup) :
    (∀ e ∈ upsertResult fl ps acc r, e.name ≠ "") ∧
      ((upsertResult fl ps acc r).map LeaderEntry.name).Nodup := by
  obtain ⟨h1, h2⟩ := h
  unfold upsertResult
  by_cases hr0 : r.name = ""
  · rw [if_pos hr0]; exact ⟨h1, h2⟩
  · rw [if_neg hr0]
    by_cases hany : acc.any (fun e => decide (e.name = r.name))
    · rw [if_pos hany]
      have hnames : (acc.map fun e =>
            if e.name = r.name then applyResult e r ps else e).map LeaderEntry.name
          = acc.map LeaderEntry.name := by
        rw [List.map_map]
        refine List.map_congr_left fun e _ => ?_
        by_cases he : e.name = r.name <;> simp [he, applyResult_name]
      constructor
      · intro e he
        obtain ⟨e0, he0, heq⟩ := List.mem_map.mp he
        have : e.name = e0.name := by
          rw [← heq]
          by_cases h5 : e0.name = r.name <;> simp [h5, applyResult_name]
        rw [this]
        exact h1 e0 he0
      · rw [hnames]; exact h2
    · rw [if_neg hany]
      constructor
      · intro e he
        rcases List.mem_append.mp he with hmem | hmem
        · exact h1 e hmem
        · rw [List.mem_singleton.mp hmem, applyResult_name]
          exact hr0
      · rw [List.map_append, List.nodup_append]
        refine ⟨h2, by simp, ?_⟩
        intro x hx hx2
        apply hany
        obtain ⟨e0, he0, heq⟩ := List.mem_map.mp hx
        have hxr : x = r.name := by
          rcases List.mem_map.mp hx2 with ⟨e1, he1, heq1⟩
          rw [List.mem_singleton.mp he1] at heq1
          rw [← heq1]
          rfl
        refine List.any_eq_true.mpr ⟨e0, he0, ?_⟩
        simp [heq, hxr]

/-- Every entry ever present in the aggregated `fencerMap` has a nonempty
name, and names are pairwise distinct. -/
lemma aggregatePools_invariant (pools : List PoolData) :
    (∀ e ∈ aggregatePools pools, e.name ≠ "") ∧
      ((aggregatePools pools).map LeaderEntry.name).Nodup := by
  unfold aggregatePools
  refine foldl_preserve
    (fun acc => (∀ e ∈ acc, e.name ≠ "") ∧ (acc.map LeaderEntry.name).Nodup)
    _ (fun acc p hp => ?_) pools []
    ⟨fun e he => absurd he (List.not_mem_nil e), by rw [List.map_nil]; exact List.Pairwise.nil⟩
  exact foldl_preserve _ _ (fun acc2 r h2 => upsertResult_invariant p.fencers
    p.fencers.length acc2 r h2) p.results acc hp

lemma find?_of_mem_nodup (l : List LeaderEntry) (e : LeaderEntry) (he : e ∈ l)
    (hnd : (l.map LeaderEntry.name).Nodup) :
    (l.find? fun x => decide (x.name = e.name)) = some e := by
  induction l with
  | nil => cases he
  | cons x xs ih =>
      rw [List.map_cons, List.nodup_cons] at hnd
      rcases List.mem_cons.mp he with rfl | hmem
      · rw [List.find?_cons_of_pos]
        simp
      · have hx : ¬ x.name = e.name := by
          intro hcon
          exact hnd.1 (hcon ▸ List.mem_map_of_mem LeaderEntry.name hmem)
        rw [List.find?_cons_of_neg _ (by simp [hx])]
        exact ih hmem hnd.2

/-- Effect of one `upsertResult` step on the loss tally of the (first) entry
named `name`: a result row bearing that name adds `(poolSize - 1) - V`,
starting from 0 for a fresh entry; any other row leaves it unchanged. -/
lemma L_upsert (fl : List Fencer) (ps : Nat) (acc : List LeaderEntry)
    (r : PoolResultEntry) (name : String) (hname : name ≠ "") :
    ((upsertResult fl ps acc r).find? fun e => decide (e.name = name)).map LeaderEntry.L
      = if r.name = name
        then some ((((acc.find? fun e => decide (e.name = name)).map
            LeaderEntry.L).getD 0) + ((ps : Int) - 1 - (r.V : Int)))
        else (acc.find? fun e => decide (e.name = name)).map LeaderEntry.L := by
  unfold upsertResult
  by_cases hr0 : r.name = ""
  · rw [if_pos hr0, if_neg (fun hh : r.name = name => hname (hh ▸ hr0))]
  · rw [if_neg hr0]
    by_cases hany : acc.any (fun e => decide (e.name = r.name))
    · rw [if_pos hany, List.find?_map]
      have hcomp : ((fun e => decide (e.name = name)) ∘
          (fun e => if e.name = r.name then applyResult e r ps else e))
          = fun e => decide (e.name = name) := by
        funext e
        by_cases he : e.name = r.name <;> simp [he, applyResult_name]
      rw [hcomp]
      cases hfind : acc.find? (fun e => decide (e.name = name)) with
      | none =>
          by_cases hrn : r.name = name
          · exfalso
            obtain ⟨e0, he0, hp0⟩ := List.any_eq_true.mp hany
            have he0n : e0.name = name := by
              have h6 := of_decide_eq_true hp0
              rw [h6, hrn]
            have h7 := List.find?_eq_none.mp hfind e0 he0
            rw [he0n] at h7
            simp at h7
          · rw [if_neg hrn]
            simp
      | some e =>
          have hp5 := List.find?_some hfind
          have hen : e.name = name := of_decide_eq_true hp5
          by_cases hrn : r.name = name
          · rw [if_pos hrn]
            have h8 : e.name = r.name := by rw [hen, hrn]
            simp [h8, applyResult]
          · rw [if_neg hrn]
            have h9 : ¬ e.name = r.name := fun hh => hrn (hh.symm.trans hen)
            simp [h9]
    · rw [if_neg hany, find?_append_aux]
      cases hfind : acc.find? (fun e => decide (e.name = name)) with
      | some e =>
          have hp5 := List.find?_some hfind
          have hen : e.name = name := of_decide_eq_true hp5
          have hrn : ¬ r.name = name := by
            intro hh
            apply hany
            refine List.any_eq_true.mpr ⟨e, List.mem_of_find?_eq_some hfind, ?_⟩
            simp [hen, hh]
          rw [if_neg hrn]
      | none =>
          by_cases hrn : r.name = name
          · rw [if_pos hrn]
            have hpos : (fun e => decide (e.name = name))
                (applyResult (initLeaderEntry fl r.name) r ps) = true := by
              simp [applyResult_name, initLeaderEntry, hrn]
            simp [List.find?_cons_of_pos _ hpos, applyResult, initLeaderEntry, hrn]
          · rw [if_neg hrn]
            have hneg : ¬ (fun e => decide (e.name = name))
                (applyResult (initLeaderEntry fl r.name) r ps) = true := by
              simp [applyResult_name, initLeaderEntry, hrn]
            simp [List.find?_cons_of_neg _ hneg, applyResult_name, initLeaderEntry, hrn]

/-- Folding one pool's result rows into `fencerMap`: the loss tally of the
entry named `name` grows by `(poolSize - 1) - V` for each row bearing that
name, starting from 0 if the entry did not yet exist. -/
lemma L_foldResults (fl : List Fencer) (ps : Nat) (name : String) (hname : name ≠ "") :
    ∀ (rs : List PoolResultEntry) (acc : List LeaderEntry),
      ((rs.foldl (upsertResult fl ps) acc).find? fun e =>
          decide (e.name = name)).map LeaderEntry.L
        = if ((acc.find? fun e => decide (e.name = name)) = none
              ∧ (rs.filter fun r => decide (r.name = name)) = [])
          then none
          else some ((((acc.find? fun e => decide (e.name = name)).map
              LeaderEntry.L).getD 0)
            + ((rs.filter fun r => decide (r.name = name)).map
                fun r => (ps : Int) - 1 - (r.V : Int)).sum) := by
  intro rs
  induction rs with
  | nil =>
      intro acc
      cases hfind : acc.find? (fun e => decide (e.name = name)) with
      | none => simp [hfind]
      | some e => simp [hfind]
  | cons r rs ih =>
      intro acc
      rw [List.foldl_cons, ih (upsertResult fl ps acc r)]
      have hval := L_upsert fl ps acc r name hname
      by_cases hrn : r.name = name
      · rw [if_pos hrn] at hval
        have hne : ¬ (upsertResult fl ps acc r).find?
            (fun e => decide (e.name = name)) = none := by
          intro hnone
          rw [hnone] at hval
          exact Option.noConfusion hval
        rw [if_neg (fun hcon => hne hcon.1),
          List.filter_cons_of_pos (by simp [hrn]),
          if_neg (fun hcon =>
            List.cons_ne_nil _ _ hcon.2),
          hval]
        simp [add_assoc]
      · rw [if_neg hrn] at hval
        have hstat : ((upsertResult fl ps acc r).find?
              (fun e => decide (e.name = name)) = none)
            ↔ ((acc.find? fun e => decide (e.name = name)) = none) := by
          constructor <;> intro hh
          · rw [hh] at hval
            exact Option.map_eq_none'.mp hval.symm
          · rw [hh] at hval
            simp only [Option.map_none'] at hval
            exact Option.map_eq_none'.mp hval
        rw [List.filter_cons_of_neg (by simp [hrn])]
        by_cases hcond : ((acc.find? fun e => decide (e.name = name)) = none)
            ∧ (rs.filter fun r => decide (r.name = name)) = []
        · rw [if_pos ⟨hstat.mpr hcond.1, hcond.2⟩, if_pos hcond]
        · rw [if_neg (fun hcon => hcond ⟨hstat.mp hcon.1, hcon.2⟩), if_neg hcond, hval]

/-- Folding the event's pools: the loss tally of the entry named `name` is
the sum of its `(poolSize - 1) - V` contributions across all pools. -/
lemma L_aggregate (name : String) (hname : name ≠ "") :
    ∀ (pools : List PoolData) (acc : List LeaderEntry),
      ((pools.foldl (fun acc p =>
            p.results.foldl (upsertResult p.fencers p.fencers.length) acc)
          acc).find? fun e => decide (e.name = name)).map LeaderEntry.L
        = if ((acc.find? fun e => decide (e.name = name)) = none
              ∧ lossContributions pools name = [])
          then none
          else some ((((acc.find? fun e => decide (e.name = name)).map
              LeaderEntry.L).getD 0) + (lossContributions pools name).sum) := by
  intro pools
  induction pools with
  | nil =>
      intro acc
      cases hfind : acc.find? (fun e => decide (e.name = name)) with
      | none => simp [hfind, lossContributions]
      | some e => simp [hfind, lossContributions]
  | cons p ps ih =>
      intro acc
      rw [List.foldl_cons, ih]
      have hinner := L_foldResults p.fencers p.fencers.length name hname p.results acc
      have hflat : lossContributions (p :: ps) name
          = ((p.results.filter fun r => decide (r.name = name)).map
              fun r => (p.fencers.length : Int) - 1 - (r.V : Int))
            ++ lossContributions ps name := by
        simp [lossContributions]
      rw [hflat]
      have hstat2 : ((p.results.foldl
            (upsertResult p.fencers p.fencers.length) acc).find?
            (fun e => decide (e.name = name)) = none)
          ↔ (((acc.find? fun e => decide (e.name = name)) = none)
              ∧ (p.results.filter fun r => decide (r.name = name)) = []) := by
        constructor
        · intro hh
          rw [hh] at hinner
          simp only [Option.map_none'] at hinner
          by_cases hc : ((acc.find? fun e => decide (e.name = name)) = none)
              ∧ (p.results.filter fun r => decide (r.name = name)) = []
          · exact hc
          · rw [if_neg hc] at hinner
            exact absurd hinner.symm (Option.some_ne_none _)
        · intro hc
          rw [if_pos hc] at hinner
          exact Option.map_eq_none'.mp hinner
      by_cases hc : ((acc.find? fun e => decide (e.name = name)) = none)
          ∧ (p.results.filter fun r => decide (r.name = name)) = []
      · rw [if_pos hc] at hinner
        rw [hc.2]
        by_cases hB : lossContributions ps name = []
        · rw [if_pos ⟨hstat2.mpr hc, hB⟩, if_pos ⟨hc.1, by simp [hB]⟩]
        · rw [if_neg (fun hcon => hB hcon.2),
            if_neg (fun hcon => hB (by
              rcases List.append_eq_nil.mp hcon.2 with ⟨h1, h2⟩
              exact h2)),
            hinner]
          simp [hc.1]
      · rw [if_neg hc] at hinner
        rw [if_neg (fun hcon => hc (hstat2.mp hcon.1)), hinner]
        rw [if_neg (fun hcon => hc ⟨hcon.1, by
          rcases List.append_eq_nil.mp hcon.2 with ⟨h1, h2⟩
          exact List.map_eq_nil.mp h1⟩)]
        simp [add_assoc]

/-- C10: the public event leaderboard charges every listed fencer
`(poolSize - 1) - V` losses per approved pool, i.e. each entry's `L` is the
sum of those amounts over all of its result rows — so a fencer whose pool had
unreported (null) bouts is charged a loss for each bout never fenced, as the
concrete all-null 2-fencer pool shows: its fencers have `V = 0`, `TS = 0`,
`TR = 0` from `computeResultsClient`, yet the leaderboard lists them with
`L = 1`. -/
theorem claimC10 :
    (∀ (pools : List PoolData) (eventName : String) (e : LeaderEntry),
        e ∈ eventLeaderboard pools eventName →
        e.L = (lossContributions
            (pools.filter fun p =>
              decide (p.event = eventName) && decide (p.submission_status = "approved"))
            e.name).sum) ∧
    (eventLeaderboard [⟨"Epee", "approved",
        [⟨"Al", "A", "", ""⟩, ⟨"Bo", "B", "", ""⟩],
        poolEntriesOf [[none, none], [none, none]]
          [⟨"Al", "A", "", ""⟩, ⟨"Bo", "B", "", ""⟩]⟩] "Epee").find?
        (fun e => decide (e.name = "Al A"))
      = some ⟨"Al A", "", "", 0, 1, 0, 0, 1⟩ := by
  constructor
  · intro pools eventName e hmem
    have hmem2 : e ∈ aggregatePools (pools.filter fun p =>
        decide (p.event = eventName) && decide (p.submission_status = "approved")) := by
      unfold eventLeaderboard at hmem
      exact (mem_sortByR _ _ _).mp hmem
    obtain ⟨hne, hnd⟩ := aggregatePools_invariant (pools.filter fun p =>
      decide (p.event = eventName) && decide (p.submission_status = "approved"))
    have hname : e.name ≠ "" := hne e hmem2
    have hfind : (aggregatePools (pools.filter fun p =>
          decide (p.event = eventName) && decide (p.submission_status = "approved"))).find?
          (fun x => decide (x.name = e.name)) = some e :=
      find?_of_mem_nodup _ e hmem2 hnd
    have hL := L_aggregate e.name hname (pools.filter fun p =>
      decide (p.event = eventName) && decide (p.submission_status = "approved")) []
    unfold aggregatePools at hfind
    rw [hfind] at hL
    by_cases hc : lossContributions (pools.filter fun p =>
        decide (p.event = eventName) && decide (p.submission_status = "approved"))
        e.name = []
    · rw [if_pos ⟨rfl, hc⟩] at hL
      exact Option.noConfusion hL
    · rw [if_neg (fun hcon => hc hcon.2)] at hL
      simpa using hL
  · decide

/-- C10 witness: the general loss formula applied to the concrete all-null
2-fencer approved pool. -/
theorem claimC10_witness :
    (⟨"Al A", "", "", 0, 1, 0, 0, 1⟩ : LeaderEntry) ∈
        eventLeaderboard [⟨"Epee", "approved",
          [⟨"Al", "A", "", ""⟩, ⟨"Bo", "B", "", ""⟩],
          poolEntriesOf [[none, none], [none, none]]
            [⟨"Al", "A", "", ""⟩, ⟨"Bo", "B", "", ""⟩]⟩] "Epee" ∧
      (⟨"Al A", "", "", 0, 1, 0, 0, 1⟩ : LeaderEntry).L
        = (lossContributions
            ([⟨"Epee", "approved",
              [⟨"Al", "A", "", ""⟩, ⟨"Bo", "B", "", ""⟩],
              poolEntriesOf [[none, none], [none, none]]
                [⟨"Al", "A", "", ""⟩, ⟨"Bo", "B", "", ""⟩]⟩].filter fun p =>
              decide (p.event = "Epee") && decide (p.submission_status = "approved"))
            "Al A").sum :=
  ⟨by decide, claimC10.1 _ "Epee" _ (by decide)⟩

end FenceFlow
